import Mathlib

/-!
Verification development for the Live-Score-Board repository.

The two cores are embedded shallowly:
* the tabular score extractor (the parsing core of `fetchScores` in the
  `useScores` hook), with JS numbers modelled as exact rationals `ℚ`
  (the special `Infinity` literal of `parseFloat` is outside this numeric
  domain) and spreadsheet rows as `List String` where a short row models
  `undefined` cells via `List.get?`;
* the Socket.io synchronization hub (`server.js`, the variant with
  category support), with JS payload values modelled by a small variant
  type that keeps the distinctions the handlers test for
  (`typeof payload === "object"` is true for `null`; absent object
  fields read as `undefined`);
* the client's `STATE_UPDATE` handler from `usePresentation.ts`.
-/

namespace LiveScore

/-! ## JS string and number helpers

All string operations are implemented by structural recursion over the
character list of the string, so that every definition evaluates inside the
kernel. The whitespace set is the ASCII one (space, tab, LF, CR), which is
what the spreadsheet data can contain; upper-casing is the ASCII mapping,
matching JS `toUpperCase` on that data. -/

/-- ASCII whitespace. -/
def wsChar (c : Char) : Bool := c = ' ' ∨ c = '\t' ∨ c = '\n' ∨ c = '\r'

/-- Model of JS `String.prototype.trim`: remove leading and trailing
whitespace. -/
def jsTrim (s : String) : String :=
  ⟨((s.data.dropWhile wsChar).reverse.dropWhile wsChar).reverse⟩

/-- ASCII upper-casing of one character. -/
def upChar (c : Char) : Char :=
  if 97 ≤ c.toNat ∧ c.toNat ≤ 122 then Char.ofNat (c.toNat - 32) else c

/-- Model of JS `String.prototype.toUpperCase`. -/
def jsToUpper (s : String) : String := ⟨s.data.map upChar⟩

/-- Model of JS `String.prototype.startsWith`. -/
def jsStartsWith (s t : String) : Bool := t.data.isPrefixOf s.data

/-- Occurrence of `t` as a contiguous sublist of `l`. -/
def occursIn (t : List Char) : List Char → Bool
  | [] => t.isPrefixOf []
  | c :: rest => t.isPrefixOf (c :: rest) || occursIn t rest

/-- Model of JS `String.prototype.includes`: `t` occurs as a substring
of `s`. -/
def strIncludes (s t : String) : Bool := occursIn t.data s.data

/-- Numeric value of a list of decimal digit characters (most significant first). -/
def digitsToNat (l : List Char) : ℕ := l.foldl (fun a c => 10 * a + (c.toNat - 48)) 0

/-- Split a character list into its leading run of decimal digits and the rest. -/
def spanDigits (l : List Char) : List Char × List Char :=
  (l.takeWhile Char.isDigit, l.dropWhile Char.isDigit)

/-- Parse an optional exponent part `e`/`E` followed by an optionally signed
digit run, as in JS `parseFloat`; `none` when no valid exponent part starts here. -/
def parseExp : List Char → Option ℤ
  | c :: rest =>
    if c = 'e' ∨ c = 'E' then
      match rest with
      | '+' :: r2 =>
          let ds := (spanDigits r2).1
          if ds = [] then none else some (digitsToNat ds : ℤ)
      | '-' :: r2 =>
          let ds := (spanDigits r2).1
          if ds = [] then none else some (-(digitsToNat ds : ℤ))
      | r2 =>
          let ds := (spanDigits r2).1
          if ds = [] then none else some (digitsToNat ds : ℤ)
    else none
  | [] => none

/-- Parse an unsigned decimal literal prefix (digits, optional fractional part,
optional exponent); `none` when no digit is consumed (JS `NaN`). -/
def parseUnsigned (l : List Char) : Option ℚ :=
  let ip := (spanDigits l).1
  let r1 := (spanDigits l).2
  let fr : List Char × List Char :=
    match r1 with
    | '.' :: rest => spanDigits rest
    | _ => ([], r1)
  if ip = [] ∧ fr.1 = [] then none
  else
    let mantissa : ℚ := (digitsToNat ip : ℚ) + (digitsToNat fr.1 : ℚ) / (10 : ℚ) ^ fr.1.length
    let e : ℤ := (parseExp fr.2).getD 0
    some (mantissa * (10 : ℚ) ^ e)

/-- Model of JS `parseFloat` over exact rationals: skip leading whitespace,
optional sign, then the longest decimal-literal prefix; `none` models `NaN`
(so `isNaN(parseFloat(s))` is `(parseFloat s).isNone`). -/
def parseFloat (s : String) : Option ℚ :=
  let l := s.data.dropWhile wsChar
  match l with
  | '+' :: rest => parseUnsigned rest
  | '-' :: rest => (parseUnsigned rest).map Neg.neg
  | _ => parseUnsigned l

/-! ## Score extractor (parsing core of `fetchScores`) -/

/-- A parsed candidate record (`photoUrl`, an external image-asset lookup,
is outside the parsing core and not modelled). -/
structure Candidate where
  name : String
  category : String
  scores : List ℚ
  totalPercentage : ℚ
deriving DecidableEq, Repr

/-- An in-progress candidate slot of the current block
(`currentBlockCandidates` entries): header column, name, collected scores. -/
structure Slot where
  index : ℕ
  name : String
  scores : List ℚ
deriving DecidableEq, Repr

/-- Parser state threaded through the row loop: emitted records,
current category, and the open slots of the current block. -/
structure ParseSt where
  parsed : List Candidate
  cat : String
  block : List Slot
deriving DecidableEq, Repr

/-- `(row[i] || "")`: a missing cell (`undefined`) and an empty cell both read
as the empty string. -/
def cellStr (row : List String) (i : ℕ) : String := (row.get? i).getD ""

/-- A row is a header row when some cell's upper-cased text contains
"CANDIDATE". -/
def isHeaderRow (row : List String) : Bool :=
  row.any (fun cell => strIncludes (jsToUpper cell) "CANDIDATE")

/-- The trimmed first cell of row `k` of the grid (empty when the row or cell
is missing). -/
def trimFirst (rows : List (List String)) (k : ℕ) : String :=
  jsTrim (cellStr ((rows.get? k).getD []) 0)

/-- The category back-scan: starting at row `i - 1` and scanning upward, stop
at the first row whose trimmed first cell is non-empty; its text is the
category unless it starts (upper-cased) with "JUDGE", in which case — and when
every row above is empty — the category is "General". Models the
`for (let j = i - 1; j >= 0; j--)` loop together with the trailing
`if (!foundCategory) currentCategory = "General"`. -/
def catScan (rows : List (List String)) : ℕ → String
  | 0 => "General"
  | j + 1 =>
      let t := trimFirst rows j
      if t ≠ "" then
        if ¬ jsStartsWith (jsToUpper t) "JUDGE" then t else "General"
      else catScan rows j

/-- `row.forEach((cell, colIndex) => ...)` of the header branch: every cell
containing "CANDIDATE" opens a slot at its column, named by its trimmed text. -/
def initSlotsFrom : ℕ → List String → List Slot
  | _, [] => []
  | col, cell :: rest =>
      if strIncludes (jsToUpper cell) "CANDIDATE" then
        ⟨col, jsTrim cell, []⟩ :: initSlotsFrom (col + 1) rest
      else initSlotsFrom (col + 1) rest

/-- Slots opened by a header row, in left-to-right column order. -/
def initSlots (row : List String) : List Slot := initSlotsFrom 0 row

/-- A judge row's effect on one open slot: read the cell at the slot's
column; skip when missing (`undefined`) or empty, otherwise append
`parseFloat` of it when that is a number. -/
def judgeSlot (row : List String) (cand : Slot) : Slot :=
  match row.get? cand.index with
  | none => cand
  | some cv =>
      if cv ≠ "" then
        match parseFloat cv with
        | some v => { cand with scores := cand.scores ++ [v] }
        | none => cand
      else cand

/-- A judge row's effect on the open slots
(`currentBlockCandidates.forEach`). -/
def applyJudgeRow (row : List String) (block : List Slot) : List Slot :=
  block.map (judgeSlot row)

/-- `finalizeBlock`: convert every open slot into a `Candidate` record —
`totalPercentage` is the sum of its scores divided by their count, `0` when
none were collected — append them to the output and clear the block. -/
def finalizeBlock (st : ParseSt) : ParseSt :=
  if st.block.length > 0 then
    { parsed := st.parsed ++ st.block.map (fun c =>
        let total := c.scores.foldl (· + ·) 0
        let avg := if c.scores.length > 0 then total / (c.scores.length : ℚ) else 0
        { name := c.name, category := st.cat, scores := c.scores,
          totalPercentage := avg }),
      cat := st.cat, block := [] }
  else st

/-- The `.trim().toUpperCase()` of a row's first cell, as used by the judge-row
test. -/
def firstCellNorm (row : List String) : String := jsToUpper (jsTrim (cellStr row 0))

/-- One iteration of the row loop at index `i`: a header row finalizes the
previous block, resolves the new category by the back-scan, and opens the new
block's slots; otherwise, when slots are open and the first cell starts with
"JUDGE", the judge row's scores are collected; any other row is inert. -/
def stepRow (st : ParseSt) (rows : List (List String)) (i : ℕ)
    (row : List String) : ParseSt :=
  if isHeaderRow row then
    let st1 := finalizeBlock st
    { parsed := st1.parsed, cat := catScan rows i, block := initSlots row }
  else
    if st.block.length > 0 ∧ jsStartsWith (firstCellNorm row) "JUDGE" then
      { st with block := applyJudgeRow row st.block }
    else st

/-- The row loop: fold `stepRow` over the rows with their indices. -/
def extractGo (rows : List (List String)) (st : ParseSt) :
    ℕ → List (List String) → ParseSt
  | _, [] => st
  | k, r :: rest => extractGo rows (stepRow st rows k r) (k + 1) rest

/-- Initial parser state: no output, category "General", no open block. -/
def initParseSt : ParseSt := ⟨[], "General", []⟩

/-- The extractor: run the row loop over the grid, then finalize the last
block; the result is the ordered list of candidate records. -/
def extract (rows : List (List String)) : List Candidate :=
  (finalizeBlock (extractGo rows initParseSt 0 rows)).parsed

/-- The trimmed names of the "CANDIDATE" cells of a row, in column order. -/
def headerNames (row : List String) : List String :=
  (row.filter (fun c => strIncludes (jsToUpper c) "CANDIDATE")).map jsTrim

/-- The category back-scan as the specification words it (for comparison
with `catScan`): the first row strictly above the header whose first cell is
non-empty AND does not start with "JUDGE" supplies the category — a
non-empty "JUDGE..." row is skipped and the scan continues upward —
and "General" only when no such row exists. -/
def claimCatScan (rows : List (List String)) : ℕ → String
  | 0 => "General"
  | j + 1 =>
      let t := trimFirst rows j
      if t ≠ "" ∧ ¬ jsStartsWith (jsToUpper t) "JUDGE" then t
      else claimCatScan rows j

/-! ## Synchronization hub (`server.js`, category-aware variant)

JS payloads are modelled by `Payload`: primitive values (whose `typeof` is
not `"object"`), `null` (whose `typeof` *is* `"object"`), and object payloads
carrying the fields the handlers read. An absent object field reads as
`undefined`; a `candidates` field, when present, holds an array (arrays are
truthy, so even an empty one replaces the cache). -/

/-- A primitive JS value as stored in state fields or sent as a bare payload. -/
inductive Prim where
  | pint (n : ℤ)
  | pstr (s : String)
  | pbool (b : Bool)
  | pundef
deriving DecidableEq, Repr

/-- The fields of an object payload that the handlers read
(`payload.index`, `payload.category`, `payload.candidates`). -/
structure ObjPayload where
  index : Option Prim
  category : Option Prim
  candidates : Option (List Candidate)
deriving DecidableEq, Repr

/-- A JS payload as discriminated by `typeof payload === "object"`:
primitives fail the test, `null` and objects pass it. -/
inductive Payload where
  | prim (p : Prim)
  | pnull
  | pobj (o : ObjPayload)
deriving DecidableEq, Repr

/-- JS truthiness `!!payload` on a payload. -/
def truthyPayload : Payload → Bool
  | .prim (.pint n) => n ≠ 0
  | .prim (.pstr s) => s ≠ ""
  | .prim (.pbool b) => b
  | .prim .pundef => false
  | .pnull => false
  | .pobj _ => true

/-- The server's module-level mutable state: `currentIndex`,
`cachedCandidates`, `isIdle`, `currentCategory`. Index and category are
`Prim` because the handlers can store `undefined` into them. -/
structure ServerState where
  currentIndex : Prim
  cachedCandidates : List Candidate
  isIdle : Bool
  currentCategory : Prim
deriving DecidableEq, Repr

/-- The state at process start: index `0`, no candidates, not idle,
empty category. -/
def initServerState : ServerState := ⟨.pint 0, [], false, .pstr ""⟩

/-- A `STATE_UPDATE` message body:
`{ currentIndex, candidates, isIdle, category }`. -/
structure Broadcast where
  currentIndex : Prim
  candidates : List Candidate
  isIdle : Bool
  category : Prim
deriving DecidableEq, Repr

/-- The full-state snapshot of a server state. -/
def snapshotOf (s : ServerState) : Broadcast :=
  ⟨s.currentIndex, s.cachedCandidates, s.isIdle, s.currentCategory⟩

/-- A client-originated mutation intent: event name plus payload. -/
inductive Intent where
  | setIndex (p : Payload)
  | setIdle (p : Payload)
  | setCategory (p : Payload)
deriving DecidableEq, Repr

/-- One intent dispatch. `Except.error ()` models the handler throwing
(dereferencing a field of `null`, which passes the `typeof` test).
`none` in the second component means no broadcast was sent (the intent was
dropped); `some b` means `io.emit("STATE_UPDATE", b)`. -/
def intentStep (s : ServerState) : Intent → Except Unit (ServerState × Option Broadcast)
  | .setIndex p =>
    match p with
    | .pnull => .error ()
    | .pobj o =>
        let s' : ServerState :=
          { s with currentIndex := o.index.getD .pundef,
                   cachedCandidates := o.candidates.getD s.cachedCandidates }
        .ok (s', some (snapshotOf s'))
    | .prim q =>
        let s' : ServerState := { s with currentIndex := q }
        .ok (s', some ⟨q, s.cachedCandidates, s.isIdle, s.currentCategory⟩)
  | .setIdle p =>
        let s' : ServerState := { s with isIdle := truthyPayload p }
        .ok (s', some (snapshotOf s'))
  | .setCategory p =>
    match p with
    | .pnull => .error ()
    | .pobj o =>
        let s' : ServerState :=
          { s with currentCategory := o.category.getD .pundef,
                   cachedCandidates := o.candidates.getD s.cachedCandidates,
                   currentIndex := .pint 0 }
        .ok (s', some (snapshotOf s'))
    | .prim _ => .ok (s, none)

/-- Sequential application of intents to the server state alone
(the hub handles one intent to completion before the next). -/
def applyIntents (s : ServerState) : List Intent → Except Unit ServerState
  | [] => .ok s
  | i :: rest =>
    match intentStep s i with
    | .error e => .error e
    | .ok (s', _) => applyIntents s' rest

/-- The hub's view: the server state plus the ids of the connected sockets. -/
structure HubState where
  server : ServerState
  clients : List ℕ
deriving DecidableEq, Repr

/-- A connection-level event at the hub. -/
inductive Event where
  | connect (cid : ℕ)
  | intentFrom (cid : ℕ) (i : Intent)
  | disconnect (cid : ℕ)
deriving DecidableEq, Repr

/-- One reactor dispatch of the hub. On `connect` the snapshot goes to the
new socket only; an accepted intent's broadcast (`io.emit`) produces one
message per connected socket; `disconnect` only shrinks the broadcast set. -/
def hubStep (h : HubState) : Event → Except Unit (HubState × List (ℕ × Broadcast))
  | .connect cid =>
      .ok ({ h with clients := h.clients ++ [cid] }, [(cid, snapshotOf h.server)])
  | .disconnect cid =>
      .ok ({ h with clients := h.clients.filter (· ≠ cid) }, [])
  | .intentFrom _ i =>
    match intentStep h.server i with
    | .error e => .error e
    | .ok (s', none) => .ok ({ h with server := s' }, [])
    | .ok (s', some b) =>
        .ok ({ h with server := s' }, h.clients.map (fun c => (c, b)))

/-- Run a sequence of hub events, accumulating all emitted messages. -/
def hubRun (h : HubState) : List Event → Except Unit (HubState × List (ℕ × Broadcast))
  | [] => .ok (h, [])
  | e :: rest =>
    match hubStep h e with
    | .error err => .error err
    | .ok (h', ms) =>
      match hubRun h' rest with
      | .error err => .error err
      | .ok (h'', ms') => .ok (h'', ms ++ ms')

/-! ## Viewer/controller client (`usePresentation.ts`, `STATE_UPDATE` handler) -/

/-- The client-side hook state touched by the `STATE_UPDATE` handler. -/
structure ClientState where
  currentIndex : ℤ
  remoteCandidates : List Candidate
  isIdle : Bool
  selectedCategory : String
deriving DecidableEq, Repr

/-- A received `STATE_UPDATE` snapshot as typed by the handler:
`currentIndex` always present, the other fields optional. -/
structure UpdateData where
  currentIndex : ℤ
  candidates : Option (List Candidate)
  isIdle : Option Bool
  category : Option String
deriving DecidableEq, Repr

/-- The `STATE_UPDATE` handler: always adopt `currentIndex`; adopt
`candidates` only when present and non-empty; adopt `isIdle` and `category`
when present (not `undefined`). -/
def handleStateUpdate (c : ClientState) (d : UpdateData) : ClientState :=
  { currentIndex := d.currentIndex,
    remoteCandidates :=
      match d.candidates with
      | some cs => if cs.length > 0 then cs else c.remoteCandidates
      | none => c.remoteCandidates,
    isIdle := d.isIdle.getD c.isIdle,
    selectedCategory := d.category.getD c.selectedCategory }

/-! ## Theorems -/

/-- C1. The claim that every malformed intent is dropped silently fails on
the code: a `null` payload passes the `typeof payload === "object"` test, so
the `SET_INDEX` and `SET_CATEGORY` handlers dereference `null` and throw; and
a `SET_INDEX` intent with payload `{}` (an object missing `index`) mutates
the state (`currentIndex` becomes `undefined`) and broadcasts it. -/
theorem c1_counterexample :
    intentStep initServerState (.setIndex .pnull) = .error () ∧
    intentStep initServerState (.setCategory .pnull) = .error () ∧
    intentStep initServerState (.setIndex (.pobj ⟨none, none, none⟩)) =
      .ok (⟨.pundef, [], false, .pstr ""⟩, some ⟨.pundef, [], false, .pstr ""⟩) ∧
    Prim.pundef ≠ Prim.pint 0 :=
  ⟨rfl, rfl, rfl, by decide⟩

/-- C1 (amended). Only `SET_CATEGORY` intents whose payload is a
non-object primitive are dropped silently (state unchanged, no broadcast,
no crash); a `null` payload makes both the `SET_INDEX` and `SET_CATEGORY`
handlers throw, and a `SET_INDEX` object payload missing its fields sets the
index to `undefined` and still broadcasts the mutated state. -/
theorem c1_amended_malformed :
    ∀ (s : ServerState) (q : Prim),
    intentStep s (.setCategory (.prim q)) = .ok (s, none) ∧
    intentStep s (.setIndex .pnull) = .error () ∧
    intentStep s (.setCategory .pnull) = .error () ∧
    intentStep s (.setIndex (.pobj ⟨none, none, none⟩)) =
      .ok ({ s with currentIndex := .pundef },
           some (snapshotOf { s with currentIndex := .pundef })) := by
  intro s q
  exact ⟨rfl, rfl, rfl, rfl⟩

/-- C5. A `SET_CATEGORY` intent with an object payload `{category,
candidates?}` sets the category, resets the index to `0`, leaves the idle
flag unchanged, and wholesale-replaces the candidate list exactly when one
is provided. -/
theorem c5_setCategory_effect :
    ∀ (s : ServerState) (c : String) (cs : Option (List Candidate)),
    ∃ s' b,
      intentStep s (.setCategory (.pobj ⟨none, some (.pstr c), cs⟩)) =
        .ok (s', some b) ∧
      s'.currentCategory = .pstr c ∧
      s'.currentIndex = .pint 0 ∧
      s'.isIdle = s.isIdle ∧
      s'.cachedCandidates = cs.getD s.cachedCandidates := by
  intro s c cs
  exact ⟨_, _, rfl, rfl, rfl, rfl, rfl⟩

/-- C6. A `SET_INDEX` intent with a bare integer payload `n` produces the
same resulting state and the same broadcast as one with the object payload
`{index: n}` and no candidate list. -/
theorem c6_legacy_payload_equiv :
    ∀ (s : ServerState) (n : ℤ),
    intentStep s (.setIndex (.prim (.pint n))) =
      intentStep s (.setIndex (.pobj ⟨some (.pint n), none, none⟩)) := by
  intro s n
  rfl

/-- C10. In the client's `STATE_UPDATE` handler, a snapshot whose
`candidates` field is absent or an empty list leaves `remoteCandidates`
unchanged, while its `currentIndex` always overwrites the client's index. -/
theorem c10_candidates_guard :
    ∀ (c : ClientState) (d : UpdateData),
    d.candidates = none ∨ d.candidates = some [] →
    (handleStateUpdate c d).remoteCandidates = c.remoteCandidates ∧
    (handleStateUpdate c d).currentIndex = d.currentIndex := by
  intro c d hd
  rcases hd with h | h <;> simp [handleStateUpdate, h]

/-- Witness for C10 at a concrete client state and snapshot. -/
theorem c10_candidates_guard_witness :
    (handleStateUpdate ⟨0, [⟨"CANDIDATE 1", "General", [], 0⟩], false, ""⟩
        ⟨5, some [], some true, none⟩).remoteCandidates =
      [⟨"CANDIDATE 1", "General", [], 0⟩] ∧
    (handleStateUpdate ⟨0, [⟨"CANDIDATE 1", "General", [], 0⟩], false, ""⟩
        ⟨5, some [], some true, none⟩).currentIndex = 5 :=
  c10_candidates_guard ⟨0, [⟨"CANDIDATE 1", "General", [], 0⟩], false, ""⟩
    ⟨5, some [], some true, none⟩ (Or.inr rfl)

/-- Any broadcast an accepted intent emits is the snapshot of the
post-transition state (also in the legacy bare-payload branch, whose
message is built field by field). -/
theorem broadcast_is_snapshot (s : ServerState) (i : Intent) (s' : ServerState)
    (b : Broadcast) (h : intentStep s i = .ok (s', some b)) : b = snapshotOf s' := by
  cases i with
  | setIndex p =>
    cases p with
    | pnull => simp [intentStep] at h
    | prim q =>
        simp only [intentStep, Except.ok.injEq, Prod.mk.injEq, Option.some.injEq] at h
        obtain ⟨h1, h2⟩ := h
        subst h1; subst h2; rfl
    | pobj o =>
        simp only [intentStep, Except.ok.injEq, Prod.mk.injEq, Option.some.injEq] at h
        obtain ⟨h1, h2⟩ := h
        subst h1; subst h2; rfl
  | setIdle p =>
        simp only [intentStep, Except.ok.injEq, Prod.mk.injEq, Option.some.injEq] at h
        obtain ⟨h1, h2⟩ := h
        subst h1; subst h2; rfl
  | setCategory p =>
    cases p with
    | pnull => simp [intentStep] at h
    | prim q => simp [intentStep] at h
    | pobj o =>
        simp only [intentStep, Except.ok.injEq, Prod.mk.injEq, Option.some.injEq] at h
        obtain ⟨h1, h2⟩ := h
        subst h1; subst h2; rfl

/-- C8. An accepted mutation intent from a connected sender produces exactly
one broadcast message per connected client — the sender included — all
carrying the identical post-transition snapshot. -/
theorem c8_broadcast_fanout :
    ∀ (h : HubState) (i : Intent) (sender : ℕ) (s' : ServerState) (b : Broadcast),
    intentStep h.server i = .ok (s', some b) →
    sender ∈ h.clients →
    ∃ ms,
      hubStep h (.intentFrom sender i) = .ok ({ h with server := s' }, ms) ∧
      ms = h.clients.map (fun c => (c, snapshotOf s')) ∧
      ms.length = h.clients.length ∧
      (sender, snapshotOf s') ∈ ms ∧
      ∀ m ∈ ms, m.2 = snapshotOf s' := by
  intro h i sender s' b hstep hmem
  have hb : b = snapshotOf s' := broadcast_is_snapshot h.server i s' b hstep
  subst hb
  refine ⟨h.clients.map (fun c => (c, snapshotOf s')), ?_, rfl, ?_, ?_, ?_⟩
  · simp [hubStep, hstep]
  · simp
  · exact List.mem_map.mpr ⟨sender, hmem, rfl⟩
  · intro m hm
    obtain ⟨c, _, rfl⟩ := List.mem_map.mp hm
    rfl

/-- Witness for C8: three connected clients, a `SET_IDLE true` intent from
client `2`. -/
theorem c8_broadcast_fanout_witness :
    ∃ ms,
      hubStep ⟨initServerState, [1, 2, 3]⟩
          (.intentFrom 2 (.setIdle (.prim (.pbool true)))) =
        .ok (⟨⟨.pint 0, [], true, .pstr ""⟩, [1, 2, 3]⟩, ms) ∧
      ms = [1, 2, 3].map
          (fun c => (c, snapshotOf ⟨.pint 0, [], true, .pstr ""⟩)) ∧
      ms.length = ([1, 2, 3] : List ℕ).length ∧
      (2, snapshotOf ⟨.pint 0, [], true, .pstr ""⟩) ∈ ms ∧
      ∀ m ∈ ms, m.2 = snapshotOf ⟨.pint 0, [], true, .pstr ""⟩ :=
  c8_broadcast_fanout ⟨initServerState, [1, 2, 3]⟩
    (.setIdle (.prim (.pbool true))) 2 ⟨.pint 0, [], true, .pstr ""⟩
    (snapshotOf ⟨.pint 0, [], true, .pstr ""⟩) rfl (by decide)

/-- Intent events neither add nor remove connections, and the hub's server
state tracks the pure sequential application of the intents. -/
theorem hubRun_tracks_applyIntents :
    ∀ (l : List Intent) (h : HubState) (s' : ServerState),
    applyIntents h.server l = .ok s' →
    ∃ ms, hubRun h (l.map (Event.intentFrom 0)) = .ok (⟨s', h.clients⟩, ms) := by
  intro l
  induction l with
  | nil =>
      intro h s' hs
      simp only [applyIntents] at hs
      cases hs
      exact ⟨[], rfl⟩
  | cons i rest ih =>
      intro h s' hs
      simp only [applyIntents] at hs
      cases hstep : intentStep h.server i with
      | error e => rw [hstep] at hs; cases hs
      | ok p =>
          rw [hstep] at hs
          obtain ⟨s1, ob⟩ := p
          obtain ⟨ms, hrun⟩ := ih ⟨s1, h.clients⟩ s' hs
          cases ob with
          | none =>
              refine ⟨ms, ?_⟩
              simp only [List.map, hubRun, hubStep, hstep, hrun]
              rfl
          | some b =>
              refine ⟨h.clients.map (fun c => (c, b)) ++ ms, ?_⟩
              simp only [List.map, hubRun, hubStep, hstep, hrun]

/-- C7. After any sequence of intents accepted from the initial state, a
client that then connects receives — on that connection only, without
issuing any intent — exactly one message: the snapshot of the state obtained
by applying all those intents in order. -/
theorem c7_late_join_catchup :
    ∀ (intents : List Intent) (s' : ServerState) (cid : ℕ) (clients0 : List ℕ),
    applyIntents initServerState intents = .ok s' →
    ∃ h ms,
      hubRun ⟨initServerState, clients0⟩ (intents.map (Event.intentFrom 0)) =
        .ok (h, ms) ∧
      h.server = s' ∧
      hubStep h (.connect cid) =
        .ok (⟨s', h.clients ++ [cid]⟩, [(cid, snapshotOf s')]) := by
  intro intents s' cid clients0 hap
  obtain ⟨ms, hrun⟩ :=
    hubRun_tracks_applyIntents intents ⟨initServerState, clients0⟩ s' hap
  exact ⟨_, ms, hrun, rfl, rfl⟩

/-- Witness for C7: two prior intents (`SET_IDLE true`, then bare
`SET_INDEX 2`), then client `7` connects. -/
theorem c7_late_join_catchup_witness :
    ∃ h ms,
      hubRun ⟨initServerState, [1, 2]⟩
          ([Intent.setIdle (.prim (.pbool true)),
            Intent.setIndex (.prim (.pint 2))].map (Event.intentFrom 0)) =
        .ok (h, ms) ∧
      h.server = ⟨.pint 2, [], true, .pstr ""⟩ ∧
      hubStep h (.connect 7) =
        .ok (⟨⟨.pint 2, [], true, .pstr ""⟩, h.clients ++ [7]⟩,
             [(7, snapshotOf ⟨.pint 2, [], true, .pstr ""⟩)]) :=
  c7_late_join_catchup
    [Intent.setIdle (.prim (.pbool true)), Intent.setIndex (.prim (.pint 2))]
    ⟨.pint 2, [], true, .pstr ""⟩ 7 [1, 2] rfl

/-- C2. The claim that the back-scan skips "JUDGE..." rows and continues
upward fails on the code: the loop `break`s at the first row with a
non-empty first cell whether or not it is a judge row. On the grid
`[["Swimwear"], ["JUDGE 1"], ["CANDIDATE 1"]]` the claim's scan yields
"Swimwear" but the extractor labels the candidate "General". -/
theorem c2_counterexample :
    claimCatScan [["Swimwear"], ["JUDGE 1"], ["CANDIDATE 1"]] 2 = "Swimwear" ∧
    extract [["Swimwear"], ["JUDGE 1"], ["CANDIDATE 1"]] =
      [⟨"CANDIDATE 1", "General", [], 0⟩] ∧
    ("General" : String) ≠ "Swimwear" :=
  ⟨rfl, rfl, by decide⟩

/-- C2 (amended). The block's category is determined by the *first* row
strictly above the header whose first cell is non-empty (trimmed): if that
cell does not start with "JUDGE" (upper-cased) its trimmed text is the
category, and otherwise — as well as when every first cell above is empty —
the category is "General"; the upward scan stops at the first non-empty
first cell and does not continue past a "JUDGE..." row. -/
theorem c2_amended_category_scan :
    ∀ rows : List (List String),
    (∀ i j, j < i → (∀ k, j < k → k < i → trimFirst rows k = "") →
      trimFirst rows j ≠ "" →
      catScan rows i =
        if jsStartsWith (jsToUpper (trimFirst rows j)) "JUDGE" then "General"
        else trimFirst rows j) ∧
    (∀ i, (∀ k, k < i → trimFirst rows k = "") → catScan rows i = "General") := by
  intro rows
  constructor
  · intro i
    induction i with
    | zero => intro j hj; exact absurd hj (Nat.not_lt_zero j)
    | succ i ih =>
        intro j hj hempty hne
        by_cases hji : j = i
        · subst hji
          simp only [catScan]
          rw [if_pos hne]
          by_cases hs : jsStartsWith (jsToUpper (trimFirst rows j)) "JUDGE" = true
          · rw [if_neg (by simp [hs]), if_pos hs]
          · rw [if_pos (by simp [hs]), if_neg hs]
        · have hj' : j < i := by omega
          have hi : trimFirst rows i = "" := hempty i hj' (Nat.lt_succ_self i)
          simp only [catScan]
          rw [if_neg (by simp [hi])]
          exact ih j hj' (fun k hk1 hk2 => hempty k hk1 (by omega)) hne
  · intro i
    induction i with
    | zero => intro _; rfl
    | succ i ih =>
        intro hempty
        have hi : trimFirst rows i = "" := hempty i (Nat.lt_succ_self i)
        simp only [catScan]
        rw [if_neg (by simp [hi])]
        exact ih (fun k hk => hempty k (by omega))

/-- Witness for C2 (amended): the first non-empty row above the header of
`[["Swim"], [], ["CANDIDATE 1"]]` is row 0 and is not a judge row, so the
back-scan started at the header row 2 yields "Swim". -/
theorem c2_amended_category_scan_witness :
    catScan [["Swim"], [], ["CANDIDATE 1"]] 2 = "Swim" := by
  have h := (c2_amended_category_scan [["Swim"], [], ["CANDIDATE 1"]]).1 2 0
    (by omega)
    (by intro k hk1 hk2; interval_cases k; rfl)
    (by decide)
  rw [h]
  decide

/-- The empty string is not a number (`parseFloat("")` is `NaN`), so the
handler's separate emptiness test is subsumed by the parse test. -/
theorem parseFloat_empty : parseFloat "" = none := rfl

/-- A judge row's effect on one slot, as one equation: the parsed value of
the cell at the slot's column — none when the cell is missing, empty or
non-numeric — is appended to the slot's scores. -/
theorem judgeSlot_eq (row : List String) (cand : Slot) :
    judgeSlot row cand =
      { cand with scores := cand.scores ++ ((row.get? cand.index).bind parseFloat).toList } := by
  unfold judgeSlot
  cases h : row.get? cand.index with
  | none => simp
  | some cv =>
      by_cases hcv : cv = ""
      · subst hcv
        simp [parseFloat_empty]
      · simp only [hcv, ne_eq, not_false_eq_true, if_true, Option.bind_some]
        cases hp : parseFloat cv <;> simp [hp, Option.toList]

/-- C3. While slots are open, a judge row appends to each open slot exactly
the parsed value of the cell at that slot's column — nothing when the cell
is missing, empty or non-numeric — and touches neither the emitted records
nor the category, so score sequences can end up with different lengths. -/
theorem c3_judge_row_scores :
    ∀ (st : ParseSt) (rows : List (List String)) (i : ℕ) (row : List String),
    isHeaderRow row = false →
    jsStartsWith (firstCellNorm row) "JUDGE" = true →
    st.block ≠ [] →
    (stepRow st rows i row).parsed = st.parsed ∧
    (stepRow st rows i row).cat = st.cat ∧
    (stepRow st rows i row).block = st.block.map (fun cand =>
      { cand with
        scores := cand.scores ++ ((row.get? cand.index).bind parseFloat).toList }) := by
  intro st rows i row hh hj hb
  have hlen : st.block.length > 0 := List.length_pos.mpr hb
  unfold stepRow
  rw [hh]
  simp only [Bool.false_eq_true, if_false]
  rw [if_pos ⟨hlen, hj⟩]
  refine ⟨rfl, rfl, ?_⟩
  unfold applyJudgeRow
  exact List.map_congr_left (fun cand _ => judgeSlot_eq row cand)

/-- Witness for C3: one open slot at column 1, judge row
`["JUDGE 1", "80"]`; the score `80` is appended. -/
theorem c3_judge_row_scores_witness :
    (stepRow ⟨[], "General", [⟨1, "CANDIDATE 1", []⟩]⟩ [] 5
        ["JUDGE 1", "80"]).parsed = [] ∧
    (stepRow ⟨[], "General", [⟨1, "CANDIDATE 1", []⟩]⟩ [] 5
        ["JUDGE 1", "80"]).cat = "General" ∧
    (stepRow ⟨[], "General", [⟨1, "CANDIDATE 1", []⟩]⟩ [] 5
        ["JUDGE 1", "80"]).block =
      ([⟨1, "CANDIDATE 1", []⟩] : List Slot).map (fun cand =>
        { cand with
          scores := cand.scores ++
            ((["JUDGE 1", "80"].get? cand.index).bind parseFloat).toList }) :=
  c3_judge_row_scores ⟨[], "General", [⟨1, "CANDIDATE 1", []⟩]⟩ [] 5
    ["JUDGE 1", "80"] rfl rfl (by simp)

/-- Left fold of addition over rationals computes the list sum. -/
theorem foldl_add_eq_sum :
    ∀ (l : List ℚ) (a : ℚ), l.foldl (· + ·) a = a + l.sum := by
  intro l
  induction l with
  | nil => intro a; simp
  | cons x rest ih => intro a; simp [ih, add_assoc]

/-- Every record `finalizeBlock` emits beyond the already-emitted ones has
`totalPercentage` equal to the sum of its scores divided by their count
(in `ℚ`, where division by the zero count of an empty list yields `0`). -/
theorem finalize_record_mean (st : ParseSt) (r : Candidate)
    (h : r ∈ (finalizeBlock st).parsed) :
    r ∈ st.parsed ∨ r.totalPercentage = r.scores.sum / (r.scores.length : ℚ) := by
  unfold finalizeBlock at h
  by_cases hb : st.block.length > 0
  · rw [if_pos hb] at h
    simp only [List.mem_append] at h
    rcases h with h | h
    · exact Or.inl h
    · right
      simp only [List.mem_map] at h
      obtain ⟨c, _, rfl⟩ := h
      by_cases hl : c.scores.length > 0
      · simp only [hl, if_pos]
        rw [foldl_add_eq_sum, zero_add]
      · have hnil : c.scores = [] := List.eq_nil_of_length_eq_zero (by omega)
        simp [hnil]
  · rw [if_neg hb] at h
    exact Or.inl h

/-- One row-loop step preserves the mean invariant on the emitted records. -/
theorem step_mean (st : ParseSt) (rows : List (List String)) (k : ℕ)
    (row : List String)
    (hinv : ∀ r ∈ st.parsed, r.totalPercentage = r.scores.sum / (r.scores.length : ℚ)) :
    ∀ r ∈ (stepRow st rows k row).parsed,
      r.totalPercentage = r.scores.sum / (r.scores.length : ℚ) := by
  intro r hr
  unfold stepRow at hr
  by_cases hh : isHeaderRow row = true
  · rw [if_pos hh] at hr
    simp only at hr
    rcases finalize_record_mean st r hr with h | h
    · exact hinv r h
    · exact h
  · rw [if_neg hh] at hr
    by_cases hc : st.block.length > 0 ∧ jsStartsWith (firstCellNorm row) "JUDGE" = true
    · rw [if_pos hc] at hr
      exact hinv r hr
    · rw [if_neg hc] at hr
      exact hinv r hr

/-- The whole row loop preserves the mean invariant. -/
theorem go_mean (l : List (List String)) :
    ∀ (rows : List (List String)) (k : ℕ) (st : ParseSt),
    (∀ r ∈ st.parsed, r.totalPercentage = r.scores.sum / (r.scores.length : ℚ)) →
    ∀ r ∈ (extractGo rows st k l).parsed,
      r.totalPercentage = r.scores.sum / (r.scores.length : ℚ) := by
  induction l with
  | nil => intro rows k st hinv; exact hinv
  | cons row rest ih =>
      intro rows k st hinv
      exact ih rows (k + 1) (stepRow st rows k row) (step_mean st rows k row hinv)

/-- C4. Every candidate record the extractor emits has `totalPercentage`
equal to `sum(scores)/n` (exactly, in `ℚ`; for an empty score list the
division by the zero count yields the required `0`), and `finalizeBlock`
emits one record per open slot — a slot with an empty score sequence is
emitted, never dropped. -/
theorem c4_mean_and_never_dropped :
    (∀ (rows : List (List String)) (r : Candidate), r ∈ extract rows →
       r.totalPercentage = r.scores.sum / (r.scores.length : ℚ)) ∧
    (∀ st : ParseSt,
       (finalizeBlock st).parsed.length = st.parsed.length + st.block.length) := by
  constructor
  · intro rows r hr
    unfold extract at hr
    rcases finalize_record_mean _ r hr with h | h
    · refine go_mean rows rows 0 initParseSt ?_ r h
      intro r' hr'
      exact absurd hr' (List.not_mem_nil r')
    · exact h
  · intro st
    unfold finalizeBlock
    by_cases hb : st.block.length > 0
    · rw [if_pos hb]
      simp
    · rw [if_neg hb]
      omega

/-- Witness for C4 at the grid `[["CANDIDATE 1"]]`: the single emitted
record has empty scores and aggregate `0 = sum([])/0`. -/
theorem c4_mean_and_never_dropped_witness :
    (⟨"CANDIDATE 1", "General", [], 0⟩ : Candidate).totalPercentage =
      (⟨"CANDIDATE 1", "General", [], 0⟩ : Candidate).scores.sum /
        ((⟨"CANDIDATE 1", "General", [], 0⟩ : Candidate).scores.length : ℚ) :=
  c4_mean_and_never_dropped.1 [["CANDIDATE 1"]] ⟨"CANDIDATE 1", "General", [], 0⟩
    (by rw [show extract [["CANDIDATE 1"]] =
          [⟨"CANDIDATE 1", "General", [], 0⟩] from rfl]
        exact List.mem_singleton.mpr rfl)

/-- The slots a header row opens are named by its "CANDIDATE" cells,
trimmed, in left-to-right column order. -/
theorem initSlotsFrom_names :
    ∀ (l : List String) (n : ℕ),
    (initSlotsFrom n l).map Slot.name = headerNames l := by
  intro l
  induction l with
  | nil => intro n; rfl
  | cons cell rest ih =>
      intro n
      by_cases h : strIncludes (jsToUpper cell) "CANDIDATE" = true
      · simp only [initSlotsFrom, if_pos h, List.map_cons]
        rw [ih (n + 1)]
        simp [headerNames, List.filter_cons, h]
      · simp only [initSlotsFrom]
        rw [if_neg (by simp [h])]
        rw [ih (n + 1)]
        simp [headerNames, List.filter_cons, h]

/-- The slots of a header row, named. -/
theorem initSlots_names (row : List String) :
    (initSlots row).map Slot.name = headerNames row :=
  initSlotsFrom_names row 0

/-- `finalizeBlock` appends the block's records, named by their slots in
order, after the already-emitted ones. -/
theorem finalize_names (st : ParseSt) :
    (finalizeBlock st).parsed.map Candidate.name =
      st.parsed.map Candidate.name ++ st.block.map Slot.name := by
  unfold finalizeBlock
  by_cases hb : st.block.length > 0
  · rw [if_pos hb]
    simp [List.map_map, Function.comp]
  · rw [if_neg hb]
    have hnil : st.block = [] := List.eq_nil_of_length_eq_zero (by omega)
    simp [hnil]

/-- A judge row renames no slot. -/
theorem judgeSlot_name (row : List String) (cand : Slot) :
    (judgeSlot row cand).name = cand.name := by
  rw [judgeSlot_eq]

/-- The names accumulated by one row-loop step: a header row appends its own
header names after everything already present; any other row changes
nothing. -/
theorem step_names (st : ParseSt) (rows : List (List String)) (k : ℕ)
    (row : List String) :
    (stepRow st rows k row).parsed.map Candidate.name ++
      (stepRow st rows k row).block.map Slot.name =
    if isHeaderRow row then
      (st.parsed.map Candidate.name ++ st.block.map Slot.name) ++ headerNames row
    else
      st.parsed.map Candidate.name ++ st.block.map Slot.name := by
  unfold stepRow
  by_cases hh : isHeaderRow row = true
  · rw [if_pos hh, if_pos hh]
    simp only
    rw [finalize_names st, initSlots_names row]
  · rw [if_neg hh, if_neg hh]
    by_cases hc : st.block.length > 0 ∧ jsStartsWith (firstCellNorm row) "JUDGE" = true
    · rw [if_pos hc]
      simp only [applyJudgeRow, List.map_map]
      congr 1
      exact List.map_congr_left (fun cand _ => judgeSlot_name row cand)
    · rw [if_neg hc]

/-- The names accumulated by the whole row loop: one batch of header names
per header row, in row order. -/
theorem go_names (l : List (List String)) :
    ∀ (rows : List (List String)) (k : ℕ) (st : ParseSt),
    (extractGo rows st k l).parsed.map Candidate.name ++
      (extractGo rows st k l).block.map Slot.name =
    st.parsed.map Candidate.name ++ st.block.map Slot.name ++
      ((l.filter isHeaderRow).map headerNames).flatten := by
  induction l with
  | nil => intro rows k st; simp [extractGo]
  | cons row rest ih =>
      intro rows k st
      simp only [extractGo]
      rw [ih rows (k + 1) (stepRow st rows k row), step_names st rows k row]
      by_cases hh : isHeaderRow row = true
      · rw [if_pos hh]
        simp [List.filter_cons, hh, List.append_assoc]
      · rw [if_neg hh]
        simp [List.filter_cons, hh]

/-- C9. The extractor's output is ordered block by block: its record names
are exactly the concatenation, over the header rows in top-to-bottom row
order, of each header's "CANDIDATE" cell names in left-to-right column
order. -/
theorem c9_output_order :
    ∀ rows : List (List String),
    (extract rows).map Candidate.name =
      ((rows.filter isHeaderRow).map headerNames).flatten := by
  intro rows
  unfold extract
  have h1 := finalize_names (extractGo rows initParseSt 0 rows)
  have h2 := go_names rows rows 0 initParseSt
  rw [h1, h2]
  rfl

end LiveScore
